import Mathlib

/-!
Verification of the DeepFusion tutorial notebook (`src/01_basic.ipynb`) and of
the minimal computational-graph engine its API calls imply.  The notebook wires
a fixed graph `x -> MatMul -> z1 -> Relu -> a -> MatMul -> z2`, target `y`,
`loss = MSELoss(z2, y)`, and runs a forward/backward/update training loop.
The engine itself (`Data`, `Module`, `Net`) is not part of the repository, so
its operations are modelled from the specification, amended only where the
notebook's recorded run observably fixes the behaviour.  Tensors are modelled
as rational matrices (`List (List ℚ)`); the dataset function `f`, which uses a
real square root, is modelled over `ℝ`.
-/

set_option maxRecDepth 4000

/-- Error kinds of the modelled engine, from the specification's error design. -/
inductive DfError where
  | ShapeMismatch
  | IncompatibleShape
  | CyclicGraphError
  | UnsetInput
  | InvalidArgument
  deriving DecidableEq

/-- A tensor value: a matrix of rationals, row-major. -/
abbrev Tensor := List (List ℚ)

/-- Zip two tensors elementwise with `op`. -/
def zipT (op : ℚ → ℚ → ℚ) (A B : Tensor) : Tensor :=
  List.zipWith (List.zipWith op) A B

/-- Elementwise sum of two tensors. -/
def addT (A B : Tensor) : Tensor := zipT (fun a b => a + b) A B

/-- Elementwise difference of two tensors. -/
def subT (A B : Tensor) : Tensor := zipT (fun a b => a - b) A B

/-- Elementwise (Hadamard) product of two tensors. -/
def hadT (A B : Tensor) : Tensor := zipT (fun a b => a * b) A B

/-- Scale a tensor by a rational constant. -/
def scaleT (c : ℚ) (A : Tensor) : Tensor := A.map (List.map (fun a => c * a))

/-- Dot product of two rows. -/
def dot (u v : List ℚ) : ℚ := (List.zipWith (fun a b => a * b) u v).sum

/-- Matrix product of two tensors. -/
def matMulT (A B : Tensor) : Tensor :=
  A.map (fun row => (List.transpose B).map (fun col => dot row col))

/-- Add a `(1, c)` bias row to every row of a tensor (row broadcast). -/
def addBias (A b : Tensor) : Tensor :=
  A.map (fun row => List.zipWith (fun a c => a + c) row (b.headD []))

/-- Elementwise `max 0` (Relu). -/
def reluT (A : Tensor) : Tensor := A.map (List.map (fun a => max a 0))

/-- Sum of all entries of a tensor. -/
def sumAll (A : Tensor) : ℚ := (A.map List.sum).sum

/-- Mean squared error between prediction and target over the batch,
as a `(1, 1)` tensor. -/
def mseT (p t : Tensor) : Tensor :=
  [[sumAll ((subT p t).map (List.map (fun a => a * a))) / (p.length : ℚ)]]

/-- `r × c` tensor of zeros. -/
def zerosT (s : ℕ × ℕ) : Tensor := List.replicate s.1 (List.replicate s.2 0)

/-- `r × c` tensor of ones. -/
def onesT (s : ℕ × ℕ) : Tensor := List.replicate s.1 (List.replicate s.2 1)

/-- Column sums of a tensor, as a `(1, c)` tensor. -/
def colSumT (A : Tensor) : Tensor := [(List.transpose A).map List.sum]

/-- Modelled from the spec: a Data node of the unseen engine — an identifier
together with a declared shape (the value/gradient buffers live in `NetState`,
arena style, keyed by the identifier). -/
structure DataNode where
  id : ℕ
  shape : ℕ × ℕ
  deriving DecidableEq

/-- Operation kinds exercised by the notebook. -/
inductive ModuleKind where
  | matmul
  | relu
  | mseloss
  deriving DecidableEq

/-- Modelled from the spec: a Module of the unseen engine — an operation kind
with input Data nodes, owned parameter Data nodes and one output Data node,
all referenced by identifier. -/
structure DFModule where
  id : ℕ
  kind : ModuleKind
  inputs : List ℕ
  params : List ℕ
  output : ℕ
  deriving DecidableEq

/-- The mutable state of the engine: per-Data-node value (optional until
set/computed), gradient, Adam moment accumulators, step counter and the
learning rate. -/
structure NetState where
  val : ℕ → Option Tensor
  grad : ℕ → Tensor
  mom : ℕ → Tensor
  vel : ℕ → Tensor
  tstep : ℕ
  lr : ℚ

/-- Point update of a function `ℕ → α`. -/
def fupd {α : Type} (f : ℕ → α) (i : ℕ) (a : α) : ℕ → α :=
  fun j => if j = i then a else f j

/-- A fresh state: no values set, empty gradients and moments. -/
def emptyState : NetState :=
  { val := fun _ => none, grad := fun _ => [], mom := fun _ => [],
    vel := fun _ => [], tstep := 0, lr := 1 }

/-- Modelled from the spec: assignment to a Data node's `val` attribute
(`Data.set`) of the unseen engine.  The spec demands a ShapeMismatch failure
when the assigned shape disagrees with the declared shape; the notebook's
recorded run assigns `(64, 3)` batches to `x` declared `(1, 3)` and trains
successfully, so the first (batch) dimension is not checked — only the
per-row (feature) dimension is validated. -/
def setVal (d : DataNode) (v : Tensor) (st : NetState) : NetState × Option DfError :=
  if ∀ row ∈ v, row.length = d.shape.2 then
    ({ st with val := fupd st.val d.id (some v) }, none)
  else (st, some DfError.ShapeMismatch)

/-- The Data node `x` of the notebook, declared with shape `(1, 3)`. -/
def xNode : DataNode := ⟨0, (1, 3)⟩

/-- The eleven cost values printed by the notebook's recorded training run
(epoch 1, then the 100-step checkpoints 100, 200, …, 1000). -/
def recordedCosts : List ℚ :=
  [512.1406868659374, 435.3471895342655, 409.49528139407636, 217.10333840630034,
   211.5108474897141, 117.1519258020598, 129.90904088681503, 91.49154702905682,
   72.32839497910018, 54.38000727140997, 37.23287852578279]

/-- C1 counterexample: assigning a value of shape `(2, 3)` — whose first
(batch) dimension disagrees with the declared shape `(1, 3)` of `x` — does
NOT fail with ShapeMismatch: the assignment succeeds and stores the value,
exactly as the notebook's recorded `(64, 3)` batch assignments do. -/
theorem C1_counterexample :
    ([[1, 2, 3], [4, 5, 6]] : Tensor).length ≠ xNode.shape.1 ∧
    (setVal xNode [[1, 2, 3], [4, 5, 6]] emptyState).2 ≠ some DfError.ShapeMismatch ∧
    (setVal xNode [[1, 2, 3], [4, 5, 6]] emptyState).1.val 0 = some [[1, 2, 3], [4, 5, 6]] := by
  refine ⟨by decide, ?_, ?_⟩ <;> decide

/-- C1 (amended): assigning a value whose per-row (feature) dimension
disagrees with the declared shape fails with ShapeMismatch and leaves the
whole state — in particular the previous value or unset state — unchanged;
a value differing only in the first (batch) dimension is accepted and
stored, and no other node's value is touched. -/
theorem C1_setVal_shape (d : DataNode) (v : Tensor) (st : NetState) :
    ((∃ row ∈ v, row.length ≠ d.shape.2) →
      setVal d v st = (st, some DfError.ShapeMismatch)) ∧
    ((∀ row ∈ v, row.length = d.shape.2) →
      (setVal d v st).2 = none ∧
      (setVal d v st).1.val d.id = some v ∧
      ∀ j, j ≠ d.id → (setVal d v st).1.val j = st.val j) := by
  constructor
  · intro hbad
    obtain ⟨row, hrow, hne⟩ := hbad
    have hnot : ¬ ∀ row ∈ v, row.length = d.shape.2 := fun hall => hne (hall row hrow)
    simp [setVal, hnot]
  · intro hall
    refine ⟨?_, ?_, ?_⟩
    · simp [setVal, if_pos hall]
    · simp [setVal, if_pos hall, fupd]
    · intro j hj
      simp [setVal, if_pos hall, fupd, hj]

/-- C1 witness: a `(1, 2)` value (wrong feature dimension) assigned to `x`
declared `(1, 3)` fails with ShapeMismatch leaving the state unchanged, while
a `(1, 3)` value is stored successfully. -/
theorem C1_setVal_shape_witness :
    setVal xNode [[1, 2]] emptyState = (emptyState, some DfError.ShapeMismatch) ∧
    (setVal xNode [[1, 2, 3]] emptyState).1.val 0 = some [[1, 2, 3]] := by
  constructor
  · exact (C1_setVal_shape xNode [[1, 2]] emptyState).1 ⟨[1, 2], by decide, by decide⟩
  · exact ((C1_setVal_shape xNode [[1, 2, 3]] emptyState).2 (by decide)).2.1

/-- Read the values of a list of Data nodes; `none` if any is unset. -/
def readAll (f : ℕ → Option Tensor) : List ℕ → Option (List Tensor)
  | [] => some []
  | i :: rest =>
    match f i, readAll f rest with
    | some v, some vs => some (v :: vs)
    | _, _ => none

/-- Modelled from the spec: per-kind forward semantics of the unseen engine's
Modules — MatMul is `input · weight + bias`, Relu is elementwise `max 0`,
MSELoss is the mean squared error over the batch. -/
def applyKind : ModuleKind → List Tensor → List Tensor → Tensor
  | ModuleKind.matmul, [X], [W, b] => addBias (matMulT X W) b
  | ModuleKind.relu, [X], _ => reluT X
  | ModuleKind.mseloss, [p, t], _ => mseT p t
  | _, _, _ => []

/-- Evaluate a single Module: read the current values of its inputs and
parameters, compute the output and write it to the output Data node;
`none` when some required value is unset. -/
def stepModule (m : DFModule) (st : NetState) : Option NetState :=
  match readAll st.val m.inputs, readAll st.val m.params with
  | some ins, some ps =>
      some { st with val := fupd st.val m.output (some (applyKind m.kind ins ps)) }
  | _, _ => none

/-- Modelled from the spec: the forward driver of the unseen engine —
evaluates Modules in the given (topological) order, aborting with UnsetInput
at the first Module with an unset input. -/
def forwardList : List DFModule → NetState → NetState × Option DfError
  | [], st => (st, none)
  | m :: rest, st =>
    match stepModule m st with
    | some st2 => forwardList rest st2
    | none => (st, some DfError.UnsetInput)

/-- Modelled from the spec: depth-first post-order traversal used at Net
construction — follow a Data node back to its producing Module, visit that
Module's inputs and parameters first, then emit the Module; fuelled for
termination. -/
def topoVisit (mods : List DFModule) : ℕ → List ℕ → ℕ → List ℕ
  | 0, acc, _ => acc
  | fuel + 1, acc, d =>
    match mods.find? (fun m => m.output == d) with
    | none => acc
    | some m =>
      if acc.contains m.id then acc
      else
        let acc2 := (m.inputs ++ m.params).foldl (topoVisit mods fuel) acc
        if acc2.contains m.id then acc2 else acc2 ++ [m.id]

/-- The topological order (as Module identifiers) reachable from the roots. -/
def topoIds (mods : List DFModule) (roots : List ℕ) : List ℕ :=
  roots.foldl (topoVisit mods (mods.length + 1)) []

/-- Modelled from the spec: the Net of the unseen engine — the graph plus the
topological Module order fixed once at construction. -/
structure DFNet where
  dataNodes : List DataNode
  modules : List DFModule
  roots : List ℕ
  order : List DFModule

/-- Net construction: one-time traversal from the root Data nodes fixing the
execution order, reused unchanged by every later forward/backward call. -/
def mkNet (dataNodes : List DataNode) (modules : List DFModule) (roots : List ℕ) : DFNet :=
  { dataNodes := dataNodes, modules := modules, roots := roots,
    order := (topoIds modules roots).filterMap
      (fun i => modules.find? (fun m => m.id == i)) }

/-- Forward pass: evaluate the Modules in the order fixed at construction. -/
def forward (net : DFNet) (st : NetState) : NetState × Option DfError :=
  forwardList net.order st

/-- The notebook's network: Data nodes `x`(0), `z1`(1), `a`(2), `z2`(3),
`y`(4), `loss`(5) and parameters `W1`(6), `b1`(7), `W2`(8), `b2`(9);
Modules `Matmul1`(10), `ActF`(11), `Matmul2`(12), `LossF`(13); root `loss`. -/
def exampleNet : DFNet := mkNet
  [⟨0, (1, 3)⟩, ⟨1, (1, 5)⟩, ⟨2, (1, 5)⟩, ⟨3, (1, 1)⟩, ⟨4, (1, 1)⟩, ⟨5, (1, 1)⟩,
   ⟨6, (3, 5)⟩, ⟨7, (1, 5)⟩, ⟨8, (5, 1)⟩, ⟨9, (1, 1)⟩]
  [⟨10, ModuleKind.matmul, [0], [6, 7], 1⟩,
   ⟨11, ModuleKind.relu, [1], [], 2⟩,
   ⟨12, ModuleKind.matmul, [2], [8, 9], 3⟩,
   ⟨13, ModuleKind.mseloss, [3, 4], [], 5⟩]
  [5]

/-- Decidable check that producers precede consumers: for every Module `m`
and every Module `n` that consumes `m`'s output (as input or parameter),
`m` appears strictly before `n` in the net's order. -/
def producerBeforeConsumer (net : DFNet) : Bool :=
  net.modules.all (fun m => net.modules.all (fun n =>
    if n.inputs.contains m.output || n.params.contains m.output then
      (net.order.map (fun k => k.id)).indexOf m.id <
        (net.order.map (fun k => k.id)).indexOf n.id
    else true))

/-- The notebook's training-loop input state: `x`, `y` and the four
parameters hold the given tensors, everything else is unset. -/
def initState (vx vy w1 c1 w2 c2 : Tensor) : NetState :=
  { val := fun i =>
      if i = 0 then some vx else if i = 4 then some vy
      else if i = 6 then some w1 else if i = 7 then some c1
      else if i = 8 then some w2 else if i = 9 then some c2 else none,
    grad := fun _ => [], mom := fun _ => [], vel := fun _ => [],
    tstep := 0, lr := 1 / 1000 }

/-- C6: the topological order computed once at the notebook Net's
construction is the fixed list `Matmul1, ActF, Matmul2, LossF` (ids
10, 11, 12, 13), reconstructing the Net from the same graph yields the same
order (stability), and every Module appears strictly before every Module
that consumes its output. -/
theorem C6_topo_order :
    exampleNet.order.map (fun m => m.id) = [10, 11, 12, 13] ∧
    exampleNet.order =
      (mkNet exampleNet.dataNodes exampleNet.modules exampleNet.roots).order ∧
    producerBeforeConsumer exampleNet = true := by
  refine ⟨by decide, rfl, by decide⟩

/-- C3: for every assignment of fixed arrays to `x.val` and `y.val` (and any
parameter tensors), `net.forward()` on the notebook's graph succeeds and
deterministically sets `loss.val` to the mean squared difference between the
forward-computed `z2` value and `y`. -/
theorem C3_forward_loss_mse (vx vy w1 c1 w2 c2 : Tensor) :
    (forward exampleNet (initState vx vy w1 c1 w2 c2)).2 = none ∧
    ∃ vz2,
      (forward exampleNet (initState vx vy w1 c1 w2 c2)).1.val 3 = some vz2 ∧
      (forward exampleNet (initState vx vy w1 c1 w2 c2)).1.val 5 =
        some (mseT vz2 vy) := by
  refine ⟨rfl, addBias (matMulT (reluT (addBias (matMulT vx w1) c1)) w2) c2, rfl, rfl⟩

/-- Accumulate a gradient contribution into a Data node's gradient buffer. -/
def accumGrad (st : NetState) (i : ℕ) (d : Tensor) : NetState :=
  { st with grad := fupd st.grad i (addT (st.grad i) d) }

/-- Modelled from the spec: per-kind backward semantics of the unseen
engine's Modules — MatMul contributes `dOut·Wᵀ` to its input, `Xᵀ·dOut` and
the column sums of `dOut` to its weight and bias; Relu passes the gradient
through where the input is positive; MSELoss contributes
`2·(prediction − target)/batch` (times the incoming gradient) to the
prediction input only. -/
def moduleBackward (m : DFModule) (st : NetState) : NetState :=
  let dOut := st.grad m.output
  match m.kind with
  | ModuleKind.matmul =>
    let xi := m.inputs.headD 0
    let wi := m.params.headD 0
    let bi := (m.params.drop 1).headD 0
    let X := (st.val xi).getD []
    let W := (st.val wi).getD []
    accumGrad (accumGrad (accumGrad st xi (matMulT dOut (List.transpose W))) wi
      (matMulT (List.transpose X) dOut)) bi (colSumT dOut)
  | ModuleKind.relu =>
    let xi := m.inputs.headD 0
    let X := (st.val xi).getD []
    accumGrad st xi (zipT (fun g x => if 0 < x then g else 0) dOut X)
  | ModuleKind.mseloss =>
    let pid := m.inputs.headD 0
    let tid := (m.inputs.drop 1).headD 0
    let p := (st.val pid).getD []
    let tt := (st.val tid).getD []
    let c := (dOut.headD []).headD 1
    accumGrad st pid (scaleT (2 * c / (p.length : ℚ)) (subT p tt))

/-- Modelled from the spec: the gradient buffers after the reset-and-seed
phase of `backward()` — every Data node of the graph is zeroed, then each
root is seeded with ones. -/
def resetSeedGrads (net : DFNet) : ℕ → Tensor :=
  fun i =>
    match net.dataNodes.find? (fun d => d.id == i) with
    | some d => if net.roots.contains i then onesT d.shape else zerosT d.shape
    | none => []

/-- The accumulation phase of `backward()`: visit Modules in the given
(reverse-topological) order, invoking each Module's backward rule. -/
def backwardAccum (mods : List DFModule) (st : NetState) : NetState :=
  mods.foldl (fun s m => moduleBackward m s) st

/-- Modelled from the spec: `net.backward()` — reset all gradients to zero,
seed the roots with ones, then visit Modules in reverse topological order
accumulating gradient contributions. -/
def backward (net : DFNet) (st : NetState) : NetState :=
  backwardAccum net.order.reverse { st with grad := resetSeedGrads net }

/-- Adam update of a single parameter Data node, from the specification's
optimizer design (decay constants 0.9 and 0.999, epsilon 1e-8, rational
square root as the modelled numeric square root). -/
def adamStep (rate : ℚ) (t2 : ℕ) (st : NetState) (p : ℕ) : NetState :=
  let g := st.grad p
  let m2 := addT (scaleT (9 / 10) (st.mom p)) (scaleT (1 / 10) g)
  let v2 := addT (scaleT (999 / 1000) (st.vel p)) (scaleT (1 / 1000) (hadT g g))
  let mhat := scaleT (1 / (1 - (9 / 10 : ℚ) ^ t2)) m2
  let vhat := scaleT (1 / (1 - (999 / 1000 : ℚ) ^ t2)) v2
  let step := zipT (fun mh vh => mh / (Rat.sqrt vh + 1 / 100000000)) mhat vhat
  { st with
    val := fupd st.val p
      (some (zipT (fun x d => x - rate * d) ((st.val p).getD []) step)),
    mom := fupd st.mom p m2,
    vel := fupd st.vel p v2 }

/-- All parameter Data nodes across the net's Modules. -/
def allParams (net : DFNet) : List ℕ :=
  net.modules.foldl (fun acc m => acc ++ m.params) []

/-- `update()` with an explicit learning rate: apply the Adam rule to every
parameter Data node and advance the step counter. -/
def updateWith (rate : ℚ) (net : DFNet) (st : NetState) : NetState :=
  let st2 := (allParams net).foldl (adamStep rate (st.tstep + 1)) st
  { st2 with tstep := st.tstep + 1 }

/-- Modelled from the spec: `net.update()` — the Adam update using the
stored learning rate. -/
def update (net : DFNet) (st : NetState) : NetState := updateWith st.lr net st

/-- Modelled from the spec: `net.set_learning_rate(rate)` — stores the rate,
failing with InvalidArgument when it is not positive. -/
def setLearningRate (rate : ℚ) (st : NetState) : NetState × Option DfError :=
  if rate ≤ 0 then (st, some DfError.InvalidArgument)
  else ({ st with lr := rate }, none)

lemma readAll_none (f : ℕ → Option Tensor) (l : List ℕ) (i : ℕ)
    (hi : i ∈ l) (hf : f i = none) : readAll f l = none := by
  induction l with
  | nil => cases hi
  | cons a rest ih =>
    rcases List.mem_cons.mp hi with h | h
    · subst h; simp [readAll, hf]
    · cases ha : f a <;> simp [readAll, ha, ih h]

lemma stepModule_none_of_unset (m : DFModule) (st : NetState) (i : ℕ)
    (hi : i ∈ m.inputs ∨ i ∈ m.params) (hv : st.val i = none) :
    stepModule m st = none := by
  rcases hi with h | h
  · simp [stepModule, readAll_none st.val m.inputs i h hv]
  · cases hins : readAll st.val m.inputs <;>
      simp [stepModule, hins, readAll_none st.val m.params i h hv]

lemma stepModule_val_other (m : DFModule) (st st2 : NetState)
    (h : stepModule m st = some st2) (i : ℕ) (hi : i ≠ m.output) :
    st2.val i = st.val i := by
  cases hins : readAll st.val m.inputs with
  | none => simp [stepModule, hins] at h
  | some ins =>
    cases hps : readAll st.val m.params with
    | none => simp [stepModule, hins, hps] at h
    | some ps =>
      simp only [stepModule, hins, hps, Option.some.injEq] at h
      subst h
      simp [fupd, hi]

lemma forwardList_err (mods : List DFModule) : ∀ st st2 : NetState, ∀ e : DfError,
    forwardList mods st = (st2, some e) →
    e = DfError.UnsetInput ∧ ∃ pre mfail post,
      mods = pre ++ mfail :: post ∧
      forwardList pre st = (st2, none) ∧ stepModule mfail st2 = none := by
  induction mods with
  | nil => intro st st2 e h; simp [forwardList] at h
  | cons m rest ih =>
    intro st st2 e h
    cases hs : stepModule m st with
    | none =>
      simp only [forwardList, hs] at h
      obtain ⟨rfl, rfl⟩ : st = st2 ∧ DfError.UnsetInput = e := by
        exact ⟨congrArg Prod.fst h, (Option.some.injEq _ _).mp (congrArg Prod.snd h)⟩
      exact ⟨rfl, [], m, rest, rfl, rfl, hs⟩
    | some stm =>
      simp only [forwardList, hs] at h
      obtain ⟨he, pre2, mfail, post2, hsplit, hpre, hstep⟩ := ih stm st2 e h
      refine ⟨he, m :: pre2, mfail, post2, by rw [hsplit]; rfl, ?_, hstep⟩
      simp [forwardList, hs, hpre]

lemma forwardList_unset (mods : List DFModule) : ∀ st : NetState, ∀ i : ℕ,
    (∃ m ∈ mods, i ∈ m.inputs ∨ i ∈ m.params) →
    (∀ m ∈ mods, m.output ≠ i) →
    st.val i = none →
    (forwardList mods st).2 = some DfError.UnsetInput := by
  induction mods with
  | nil =>
    intro st i hreq _ _
    obtain ⟨m, hm, _⟩ := hreq
    cases hm
  | cons m rest ih =>
    intro st i hreq hleaf hv
    cases hs : stepModule m st with
    | none => simp [forwardList, hs]
    | some stm =>
      have hv2 : stm.val i = st.val i :=
        stepModule_val_other m st stm hs i (fun h => hleaf m (List.mem_cons_self m rest) h.symm)
      obtain ⟨m2, hm2, hio⟩ := hreq
      rcases List.mem_cons.mp hm2 with h | h
      · subst h
        exact absurd hs (by rw [stepModule_none_of_unset m2 st i hio hv]; simp)
      · have : (forwardList rest stm).2 = some DfError.UnsetInput :=
          ih stm i ⟨m2, h, hio⟩ (fun m3 hm3 => hleaf m3 (List.mem_cons_of_mem m hm3))
            (hv2.trans hv)
        simpa [forwardList, hs] using this

lemma forwardList_val_untouched (mods : List DFModule) : ∀ st : NetState, ∀ i : ℕ,
    (∀ m ∈ mods, m.output ≠ i) →
    (forwardList mods st).1.val i = st.val i := by
  induction mods with
  | nil => intro st i _; rfl
  | cons m rest ih =>
    intro st i hout
    cases hs : stepModule m st with
    | none => simp [forwardList, hs]
    | some stm =>
      have h1 : stm.val i = st.val i :=
        stepModule_val_other m st stm hs i
          (fun h => hout m (List.mem_cons_self m rest) h.symm)
      have h2 := ih stm i (fun m3 hm3 => hout m3 (List.mem_cons_of_mem m hm3))
      simpa [forwardList, hs, h1] using h2

/-- C7: `net.forward()` fails with UnsetInput whenever a leaf Data node
required by the execution order (an input or parameter of some Module in the
order that no Module of the order produces) has no assigned value; and the
aborted call mutates nothing beyond the Modules already evaluated before the
failure: the resulting state is exactly the state after the successful
prefix, the failing Module wrote nothing, and every Data node that is not an
output of the prefix keeps its previous value. -/
theorem C7_forward_unset_abort (net : DFNet) (st : NetState) (i : ℕ)
    (hreq : ∃ m ∈ net.order, i ∈ m.inputs ∨ i ∈ m.params)
    (hleaf : ∀ m ∈ net.order, m.output ≠ i)
    (hunset : st.val i = none) :
    (forward net st).2 = some DfError.UnsetInput ∧
    ∃ pre mfail post,
      net.order = pre ++ mfail :: post ∧
      forwardList pre st = ((forward net st).1, none) ∧
      stepModule mfail (forward net st).1 = none ∧
      ∀ j, (∀ m2 ∈ pre, m2.output ≠ j) → (forward net st).1.val j = st.val j := by
  have herr : (forwardList net.order st).2 = some DfError.UnsetInput :=
    forwardList_unset net.order st i hreq hleaf hunset
  rcases hres : forwardList net.order st with ⟨st2, oe⟩
  have hoe : oe = some DfError.UnsetInput := by rw [hres] at herr; exact herr
  subst hoe
  obtain ⟨_, pre, mfail, post, hsplit, hpre, hstep⟩ :=
    forwardList_err net.order st st2 DfError.UnsetInput hres
  have hfwd : forward net st = (st2, some DfError.UnsetInput) := by
    rw [forward, hres]
  refine ⟨by rw [hfwd], pre, mfail, post, hsplit, ?_, ?_, ?_⟩
  · rw [hfwd]; exact hpre
  · rw [hfwd]; exact hstep
  · intro j hj
    rw [hfwd]
    have := forwardList_val_untouched pre st j hj
    rw [hpre] at this
    exact this

/-- C7 witness: on the notebook's net, with all parameters set but `x`
(node 0) unset, forward aborts with UnsetInput. -/
theorem C7_forward_unset_abort_witness :
    (forward exampleNet
      { emptyState with val := fun i =>
          if i = 4 then some [[1]] else if i = 6 then some (zerosT (3, 5))
          else if i = 7 then some (zerosT (1, 5)) else if i = 8 then some (zerosT (5, 1))
          else if i = 9 then some (zerosT (1, 1)) else none }).2 =
      some DfError.UnsetInput :=
  (C7_forward_unset_abort exampleNet _ 0
    ⟨⟨10, ModuleKind.matmul, [0], [6, 7], 1⟩, by decide, by decide⟩
    (by decide) rfl).1

lemma moduleBackward_fields (m : DFModule) (st : NetState) :
    (moduleBackward m st).val = st.val ∧ (moduleBackward m st).mom = st.mom ∧
    (moduleBackward m st).vel = st.vel ∧ (moduleBackward m st).tstep = st.tstep ∧
    (moduleBackward m st).lr = st.lr := by
  rcases m with ⟨mid, k, ins, ps, outp⟩
  cases k <;> exact ⟨rfl, rfl, rfl, rfl, rfl⟩

lemma backwardAccum_fields (mods : List DFModule) : ∀ st : NetState,
    (backwardAccum mods st).val = st.val ∧ (backwardAccum mods st).mom = st.mom ∧
    (backwardAccum mods st).vel = st.vel ∧
    (backwardAccum mods st).tstep = st.tstep ∧
    (backwardAccum mods st).lr = st.lr := by
  induction mods with
  | nil => intro st; exact ⟨rfl, rfl, rfl, rfl, rfl⟩
  | cons m rest ih =>
    intro st
    have h1 : backwardAccum (m :: rest) st = backwardAccum rest (moduleBackward m st) := rfl
    obtain ⟨hv, hm, hve, ht, hl⟩ := ih (moduleBackward m st)
    obtain ⟨gv, gm, gve, gt, gl⟩ := moduleBackward_fields m st
    rw [h1]
    exact ⟨hv.trans gv, hm.trans gm, hve.trans gve, ht.trans gt, hl.trans gl⟩

lemma netState_with_grad_congr (s1 s2 : NetState) (hv : s1.val = s2.val)
    (hm : s1.mom = s2.mom) (hve : s1.vel = s2.vel) (ht : s1.tstep = s2.tstep)
    (hl : s1.lr = s2.lr) (g : ℕ → Tensor) :
    ({ s1 with grad := g } : NetState) = { s2 with grad := g } := by
  cases s1; cases s2
  simp_all

lemma backward_backward (net : DFNet) (st : NetState) :
    backward net (backward net st) = backward net st := by
  have hkey : ({ backward net st with grad := resetSeedGrads net } : NetState) =
      { st with grad := resetSeedGrads net } := by
    obtain ⟨hv, hm, hve, ht, hl⟩ :=
      backwardAccum_fields net.order.reverse { st with grad := resetSeedGrads net }
    exact netState_with_grad_congr _ _ hv hm hve ht hl _
  show backwardAccum net.order.reverse { backward net st with grad := resetSeedGrads net } =
    backward net st
  rw [hkey]
  rfl

/-- C5: `net.backward()` zeroes every Data node's gradient before
accumulating — the resulting gradients are independent of the gradients held
before the call — and, for fixed values (no intervening forward pass),
calling `backward()` twice in a row yields exactly the same gradients as
calling it once. -/
theorem C5_backward_zero_idempotent (net : DFNet) (v : ℕ → Option Tensor)
    (g1 g2 mo ve : ℕ → Tensor) (ts : ℕ) (r : ℚ) (st : NetState) :
    (backward net ⟨v, g1, mo, ve, ts, r⟩).grad =
      (backward net ⟨v, g2, mo, ve, ts, r⟩).grad ∧
    (backward net (backward net st)).grad = (backward net st).grad := by
  exact ⟨rfl, by rw [backward_backward]⟩

lemma foldl_adamStep_lr (rate : ℚ) (t2 : ℕ) (l : List ℕ) : ∀ st : NetState,
    (l.foldl (adamStep rate t2) st).lr = st.lr := by
  induction l with
  | nil => intro st; rfl
  | cons p rest ih => intro st; exact (ih (adamStep rate t2 st p)).trans rfl

lemma updateWith_lr (rate : ℚ) (net : DFNet) (st : NetState) :
    (updateWith rate net st).lr = st.lr := by
  show ((allParams net).foldl (adamStep rate (st.tstep + 1)) st).lr = st.lr
  exact foldl_adamStep_lr rate (st.tstep + 1) (allParams net) st

/-- C8: `net.set_learning_rate(rate)` fails with InvalidArgument for every
rate ≤ 0 leaving the state unchanged, and for every rate > 0 it succeeds,
stores the rate, and the stored rate is the scalar the optimizer uses on
every subsequent `update()`: `update` on the resulting state is exactly the
Adam update with that rate, and the rate survives the update. -/
theorem C8_set_learning_rate (rate : ℚ) (st : NetState) :
    (rate ≤ 0 → setLearningRate rate st = (st, some DfError.InvalidArgument)) ∧
    (0 < rate →
      (setLearningRate rate st).2 = none ∧
      (setLearningRate rate st).1.lr = rate ∧
      (∀ net : DFNet, update net (setLearningRate rate st).1 =
        updateWith rate net (setLearningRate rate st).1) ∧
      (∀ net : DFNet, (update net (setLearningRate rate st).1).lr = rate)) := by
  constructor
  · intro h
    simp [setLearningRate, h]
  · intro h
    have hne : ¬ rate ≤ 0 := not_le.mpr h
    refine ⟨by simp [setLearningRate, hne], by simp [setLearningRate, hne], ?_, ?_⟩
    · intro net
      simp [setLearningRate, hne, update]
    · intro net
      simp [setLearningRate, hne, update, updateWith_lr]

/-- C8 witness: the notebook's rate 0.001 is accepted and stored; rate 0 is
rejected with InvalidArgument. -/
theorem C8_set_learning_rate_witness :
    (setLearningRate (1 / 1000) emptyState).2 = none ∧
    (setLearningRate (1 / 1000) emptyState).1.lr = 1 / 1000 ∧
    setLearningRate 0 emptyState = (emptyState, some DfError.InvalidArgument) := by
  have h := (C8_set_learning_rate (1 / 1000) emptyState).2 (by norm_num)
  have h0 := (C8_set_learning_rate 0 emptyState).1 le_rfl
  exact ⟨h.1, h.2.1, h0⟩

/-- C2: in the notebook's recorded training run, the cost at the first
100-step checkpoint (epoch 100) is strictly greater than the cost at the last
checkpoint (epoch 1000); the same holds from the first reported cost
(epoch 1) to the last, and all eleven reported values are accounted for. -/
theorem C2_recorded_costs_decrease :
    (recordedCosts.drop 1).getLastD 0 < (recordedCosts.drop 1).headD 0 ∧
    recordedCosts.getLastD 0 < recordedCosts.headD 0 ∧
    recordedCosts.length = 11 := by
  refine ⟨?_, ?_, by decide⟩ <;> norm_num [recordedCosts]

/-- A 2-D numpy array as used by the notebook's dataset code: a shape plus an
entry function over the reals. -/
structure NpArray where
  rows : ℕ
  cols : ℕ
  entry : ℕ → ℕ → ℝ

/-- The fancy column slice `X[:, a:b]`, which preserves the 2-D shape. -/
def sliceCols (X : NpArray) (a b : ℕ) : NpArray :=
  ⟨X.rows, b - a, fun i j => X.entry i (a + j)⟩

/-- Scalar multiple of an array (numpy broadcasting of `c * X`). -/
noncomputable def smulN (c : ℝ) (X : NpArray) : NpArray :=
  ⟨X.rows, X.cols, fun i j => c * X.entry i j⟩

/-- Elementwise sum of two arrays of the same shape. -/
noncomputable def addN (X Y : NpArray) : NpArray :=
  ⟨X.rows, X.cols, fun i j => X.entry i j + Y.entry i j⟩

/-- Elementwise natural power `X ** n`. -/
noncomputable def powNatN (X : NpArray) (n : ℕ) : NpArray :=
  ⟨X.rows, X.cols, fun i j => X.entry i j ^ n⟩

/-- Elementwise real power `X ** e` (numpy's fractional power). -/
noncomputable def rpowN (X : NpArray) (e : ℝ) : NpArray :=
  ⟨X.rows, X.cols, fun i j => X.entry i j ^ e⟩

/-- The notebook's dataset function
`f(X) = X[:, 0:1] + 2 * X[:, 1:2] ** 2 + 3 * X[:, 2:3] ** 0.5`. -/
noncomputable def f (X : NpArray) : NpArray :=
  addN (addN (sliceCols X 0 1) (smulN 2 (powNatN (sliceCols X 1 2) 2)))
    (smulN 3 (rpowN (sliceCols X 2 3) (0.5 : ℝ)))

/-- The notebook's training inputs `X_train = np.random.rand(100000, 3) * 5`,
parameterised by the sampled entries `r` of `np.random.rand` (modelled from
the spec: the numpy sampler is external; its contract is entries in `[0, 1)`,
taken as a hypothesis where needed). -/
noncomputable def X_train (r : ℕ → ℕ → ℝ) : NpArray := smulN 5 ⟨100000, 3, r⟩

/-- Modelled from the spec: `np.random.choice(n, size = k, replace = False)`
(the numpy sampler is external) — drawing `k` indices from `range n` without
replacement, modelled as taking the first `k` entries of a permutation of
`range n`. -/
def npChoice (perm : List ℕ) (k : ℕ) : List ℕ := perm.take k

/-- A concrete all-ones `1 × 3` array, used to instantiate C4. -/
noncomputable def X0demo : NpArray := ⟨1, 3, fun _ _ => 1⟩

/-- C4: for every 2-D array with at least 3 columns, `f` returns an array of
shape `(m, 1)` whose `i`-th entry is `x1 + 2·x2² + 3·x3^0.5`. -/
theorem C4_dataset_f (X : NpArray) (h : 3 ≤ X.cols) :
    (f X).rows = X.rows ∧ (f X).cols = 1 ∧
    ∀ i, (f X).entry i 0 =
      X.entry i 0 + 2 * X.entry i 1 ^ 2 + 3 * X.entry i 2 ^ (0.5 : ℝ) := by
  refine ⟨rfl, rfl, fun i => ?_⟩
  simp [f, addN, smulN, powNatN, rpowN, sliceCols]

/-- C4 witness: on the all-ones `1 × 3` array, `f` yields a `(1, 1)` array
realizing the target formula. -/
theorem C4_dataset_f_witness :
    (f X0demo).rows = 1 ∧ (f X0demo).cols = 1 ∧
    ∀ i, (f X0demo).entry i 0 =
      X0demo.entry i 0 + 2 * X0demo.entry i 1 ^ 2 + 3 * X0demo.entry i 2 ^ (0.5 : ℝ) :=
  C4_dataset_f X0demo (by norm_num [X0demo])

/-- C9: drawing `k ≤ n` indices without replacement from `range n` yields
exactly `k` pairwise-distinct indices, each in `[0, n)` — so the notebook's
mini-batch `X_train[idx, :]`, with `B = 64` and `n = 100000` rows, is a
well-defined in-bounds selection with no repeated training example. -/
theorem C9_choice (n k : ℕ) (perm : List ℕ) (hp : perm.Perm (List.range n))
    (hk : k ≤ n) :
    (npChoice perm k).length = k ∧ (npChoice perm k).Nodup ∧
    ∀ i ∈ npChoice perm k, i < n := by
  have hlen : perm.length = n := by rw [hp.length_eq, List.length_range]
  refine ⟨?_, ?_, ?_⟩
  · rw [npChoice, List.length_take, hlen]
    exact min_eq_left hk
  · exact List.Nodup.sublist (List.take_sublist k perm)
      ((hp.nodup_iff).mpr (List.nodup_range n))
  · intro i hi
    have h1 : i ∈ perm := List.mem_of_mem_take hi
    exact List.mem_range.mp ((hp.mem_iff).mp h1)

/-- C9 witness: with the notebook's sizes, 64 indices drawn from the
identity permutation of `range 100000` are 64 distinct in-range indices. -/
theorem C9_choice_witness :
    (npChoice (List.range 100000) 64).length = 64 ∧
    (npChoice (List.range 100000) 64).Nodup ∧
    ∀ i ∈ npChoice (List.range 100000) 64, i < 100000 :=
  C9_choice 100000 64 (List.range 100000) (List.Perm.refl _) (by norm_num)

/-- C10: when the sampled `np.random.rand` entries lie in `[0, 1)`, every
entry of `X_train` lies in `[0, 5)`; in particular the operand of the
fractional power `X[:, 2:3] ** 0.5` inside `f` is non-negative, so that
power is the genuine (NaN-free) square root of its operand. -/
theorem C10_xtrain_bounds (r : ℕ → ℕ → ℝ)
    (hr : ∀ i j, 0 ≤ r i j ∧ r i j < 1) :
    (∀ i j, 0 ≤ (X_train r).entry i j ∧ (X_train r).entry i j < 5) ∧
    (∀ i, 0 ≤ (sliceCols (X_train r) 2 3).entry i 0) ∧
    (∀ i, (sliceCols (X_train r) 2 3).entry i 0 ^ (0.5 : ℝ) =
      Real.sqrt ((sliceCols (X_train r) 2 3).entry i 0)) := by
  have hb : ∀ i j, 0 ≤ (X_train r).entry i j ∧ (X_train r).entry i j < 5 := by
    intro i j
    have h1 := (hr i j).1
    have h2 := (hr i j).2
    constructor
    · exact mul_nonneg (by norm_num) h1
    · calc (5 : ℝ) * r i j < 5 * 1 := by
            exact mul_lt_mul_of_pos_left h2 (by norm_num)
        _ = 5 := by norm_num
  refine ⟨hb, fun i => ?_, fun i => ?_⟩
  · exact (hb i 2).1
  · rw [show (0.5 : ℝ) = 1 / 2 by norm_num, ← Real.sqrt_eq_rpow]

/-- C10 witness: with every sampled entry equal to 1/2, all `X_train`
entries are in `[0, 5)` and the fractional power is the square root. -/
theorem C10_xtrain_bounds_witness :
    (∀ i j, 0 ≤ (X_train fun _ _ => (1 / 2 : ℝ)).entry i j ∧
      (X_train fun _ _ => (1 / 2 : ℝ)).entry i j < 5) ∧
    (∀ i, 0 ≤ (sliceCols (X_train fun _ _ => (1 / 2 : ℝ)) 2 3).entry i 0) ∧
    (∀ i, (sliceCols (X_train fun _ _ => (1 / 2 : ℝ)) 2 3).entry i 0 ^ (0.5 : ℝ) =
      Real.sqrt ((sliceCols (X_train fun _ _ => (1 / 2 : ℝ)) 2 3).entry i 0)) :=
  C10_xtrain_bounds (fun _ _ => (1 / 2 : ℝ)) (fun _ _ => by norm_num)
